import Mathlib

/-!
# Verification of the tunein/go-cache in-memory TTL cache

Shallow embedding of the repository's current implementation: the generic
cache (`cache.go`, the `comparable`-keyed generation, given here as
`src/unnamed/part_001` together with `cacheitem.go`, `funcs.go`,
`interface.go`) and the call-coalescing group (`src/unnamed/part_004`).

Modelling conventions:
* `time.Time` and `time.Duration` are nanosecond counts, modelled as `Int`;
  every operation that reads the wall clock takes an explicit `now : Int`.
* The Go map `map[TKey]cacheItem[TValue]` is modelled as an association list
  with at most one binding per key (insertion replaces in place, deletion
  removes the binding).
* A Go `(value, error)` return is modelled as the value together with an
  `Option (CacheErr E)`; `none` is Go's `nil` error, `CacheErr.notFound`
  is `ErrNotFound`, `CacheErr.loader e` is an error produced by the
  caller-supplied loader, and `CacheErr.recovered` is the
  `fmt.Errorf("Loader panics: ...")` error that the historical
  `load` (`src/unnamed/part_000`) builds from a recovered panic.
* Zero values (`var def TValue`) are modelled by `default` of an
  `Inhabited` instance.
* The on-added hook (`addedFunc`) only notifies the caller and never touches
  the store state, so it is omitted from the state; mutexes serialize the
  sections that the sequential functions below model as single steps.
-/

set_option maxHeartbeats 1600000

namespace GoCache

/-- Error taxonomy surfaced by the cache: Go's `ErrNotFound`, a
loader-originated error of payload type `E`, and the error the historical
`load` wrapper builds from a recovered loader panic. -/
inductive CacheErr (E : Type) where
  | notFound : CacheErr E
  | loader (e : E) : CacheErr E
  | recovered : CacheErr E
deriving DecidableEq, Repr

/-- `cacheItem` from `cacheitem.go`: value, ttl and insertion timestamp. -/
structure cacheItem (V : Type) where
  val : V
  ttl : Int
  added : Int
deriving DecidableEq, Repr

/-- `cacheItem.expired` from `cacheitem.go`:
`if c.ttl <= 0 { return false }; return time.Since(c.added) > c.ttl`. -/
def cacheItem.expired (c : cacheItem V) (now : Int) : Bool :=
  if c.ttl ≤ 0 then false
  else decide (now - c.added > c.ttl)

/-- Lookup in the association-list model of the Go map (`item, ok := c.items[key]`). -/
def listLookup [DecidableEq K] (l : List (K × cacheItem V)) (key : K) :
    Option (cacheItem V) :=
  (l.find? (fun p => decide (p.1 = key))).map Prod.snd

/-- Map assignment `c.items[key] = item`: replace the binding in place if the
key is present, otherwise add it. -/
def listInsert [DecidableEq K] (l : List (K × cacheItem V)) (key : K)
    (it : cacheItem V) : List (K × cacheItem V) :=
  match l with
  | [] => [(key, it)]
  | p :: rest =>
      if p.1 = key then (key, it) :: rest
      else p :: listInsert rest key it

/-- Map deletion `delete(c.items, key)`: remove the binding of `key`. -/
def listErase [DecidableEq K] (l : List (K × cacheItem V)) (key : K) :
    List (K × cacheItem V) :=
  l.eraseP (fun p => decide (p.1 = key))

/-- The cache state (`Cache` struct of `cache.go`): the key-item map, the
default TTL, and the optional loader-with-expiry hook.  The mutexes and the
on-added hook carry no store state and are not part of the model. -/
structure Cache (K V E : Type) where
  items : List (K × cacheItem V)
  ttl : Int
  loaderExpireFunc : Option (K → V × Option Int × Option E)

variable {K V E : Type} [DecidableEq K] [Inhabited V]

/-- Result of a `(TValue, error)` returning cache operation. -/
structure GetOut (K V E : Type) where
  cache : Cache K V E
  val : V
  err : Option (CacheErr E)

/-- Private `set` of `cache.go`: look the key up, substitute the default TTL
when the requested one is below one time unit, overwrite value, ttl and
timestamp, and store the item back.  Since every field of the looked-up item
is overwritten, the effect is replacing the binding by a fresh item. -/
def Cache.set (c : Cache K V E) (key : K) (value : V) (ttl now : Int) :
    Cache K V E :=
  let ttl := if ttl < 1 then c.ttl else ttl
  { c with items := listInsert c.items key ⟨value, ttl, now⟩ }

/-- Public `Set` of `cache.go`: `c.set(key, value, 0)`. -/
def Cache.Set (c : Cache K V E) (key : K) (value : V) (now : Int) :
    Cache K V E :=
  c.set key value 0 now

/-- `SetWithExpire` of `cache.go`: a negative expiration is first replaced by
the default TTL, then `set` is called. -/
def Cache.SetWithExpire (c : Cache K V E) (key : K) (value : V)
    (expiration now : Int) : Cache K V E :=
  let expiration := if expiration < 0 then c.ttl else expiration
  c.set key value expiration now

/-- Private `get` of `cache.go`: on a live hit return the value; on an
expired hit delete the entry and report `ErrNotFound`; on a miss report
`ErrNotFound`.  The zero value `def` is returned on both failure paths. -/
def Cache.get (c : Cache K V E) (key : K) (now : Int) : GetOut K V E :=
  match listLookup c.items key with
  | some item =>
      if item.expired now then
        ⟨{ c with items := listErase c.items key }, default, some .notFound⟩
      else
        ⟨c, item.val, none⟩
  | none => ⟨c, default, some .notFound⟩

/-- `UpdateWithExpire` of `cache.go`: clamp a negative expiration to the
default, read the current value ignoring the lookup error (the zero value is
used on a miss), apply `calc` and store the result. -/
def Cache.UpdateWithExpire (c : Cache K V E) (key : K) (f : V → V)
    (expiration now : Int) : Cache K V E :=
  let expiration := if expiration < 0 then c.ttl else expiration
  let r := c.get key now
  r.cache.set key (f r.val) expiration now

/-- `Update` of `cache.go`: `UpdateWithExpire` with expiration `0`. -/
def Cache.Update (c : Cache K V E) (key : K) (f : V → V) (now : Int) :
    Cache K V E :=
  c.UpdateWithExpire key f 0 now

/-- Result of `Group.Do` (`singlecall.go`): value, error and the
`dupl`/`called` flag. -/
structure DoOut (K V E : Type) where
  cache : Cache K V E
  val : V
  err : Option (CacheErr E)
  called : Bool

/-- `Group.Do` of `singlecall.go` specialised to a single caller with no
in-flight call record (the sequential case): re-check the store via
`g.c.get(key)`; on a hit return `(v, false, nil)`; otherwise create the call
record, run `fn`, remove the record and return `(v, true, err)`.
The concurrent behaviour of `Do` is modelled separately by `SF.SFStep`. -/
def Group.DoSeq (c : Cache K V E) (key : K) (now : Int)
    (fn : Cache K V E → Cache K V E × V × Option (CacheErr E)) :
    DoOut K V E :=
  let r := c.get key now
  match r.err with
  | none => ⟨r.cache, r.val, none, false⟩
  | some _ =>
      let s := fn r.cache
      ⟨s.1, s.2.1, s.2.2, true⟩

/-- `load` of `cache.go`: run the callback through the coalescing group and
replace the value by the zero value whenever an error came back. -/
def Cache.load (c : Cache K V E) (key : K) (now : Int)
    (cb : Cache K V E → Cache K V E × V × Option (CacheErr E)) : DoOut K V E :=
  let r := Group.DoSeq c key now cb
  match r.err with
  | some e => ⟨r.cache, default, some e, r.called⟩
  | none => ⟨r.cache, r.val, none, r.called⟩

/-- `getWithLoader` of `cache.go`: without a configured loader report
`ErrNotFound`; otherwise load with a callback that passes a loader error
through unchanged without touching the store and on success writes
`(key, value, expiry-or-zero)` into the store. -/
def Cache.getWithLoader (c : Cache K V E) (key : K) (now : Int) :
    GetOut K V E :=
  match c.loaderExpireFunc with
  | none => ⟨c, default, some .notFound⟩
  | some lf =>
      let r := c.load key now (fun c1 =>
        let t := lf key
        match t.2.2 with
        | some e => (c1, default, some (.loader e))
        | none =>
            let ttl := t.2.1.getD 0
            (c1.set key t.1 ttl now, t.1, none))
      match r.err with
      | some e => ⟨r.cache, default, some e⟩
      | none => ⟨r.cache, r.val, none⟩

/-- Public `Get` of `cache.go`: try the store; on `ErrNotFound` (the only
error `get` produces) fall back to the loader path in blocking mode. -/
def Cache.Get (c : Cache K V E) (key : K) (now : Int) : GetOut K V E :=
  let r := c.get key now
  match r.err with
  | some _ => r.cache.getWithLoader key now
  | none => r

/-- `Keys` of `cache.go`: enumerate under a read lock, keeping a key when
expiry checking is off or its item is not expired.  The Go loop only reads
the map, which the purely functional type records. -/
def Cache.Keys (c : Cache K V E) (checkExpired : Bool) (now : Int) : List K :=
  (c.items.filter (fun p => !checkExpired || !(p.2.expired now))).map Prod.fst

/-- `Len` of `cache.go`: the raw map size without expiry checking, otherwise
the number of unexpired items.  Like `Keys` it only reads the map. -/
def Cache.Len (c : Cache K V E) (checkExpired : Bool) (now : Int) : Nat :=
  if !checkExpired then c.items.length
  else (c.items.filter (fun p => !(p.2.expired now))).length

/-! ### Association-list lemmas -/

omit [Inhabited V] in
theorem listLookup_cons (p : K × cacheItem V) (rest : List (K × cacheItem V))
    (key : K) :
    listLookup (p :: rest) key =
      if p.1 = key then some p.2 else listLookup rest key := by
  by_cases h : p.1 = key <;> simp [listLookup, List.find?_cons, h]

omit [Inhabited V] in
theorem listLookup_listInsert_self
    (l : List (K × cacheItem V)) (key : K) (it : cacheItem V) :
    listLookup (listInsert l key it) key = some it := by
  induction l with
  | nil => simp [listInsert, listLookup]
  | cons p rest ih =>
      by_cases h : p.1 = key
      · simp [listInsert, h, listLookup_cons]
      · simp [listInsert, h, listLookup_cons, ih]

omit [Inhabited V] in
theorem listErase_of_lookup_none
    (l : List (K × cacheItem V)) (key : K)
    (h : listLookup l key = none) : listErase l key = l := by
  induction l with
  | nil => rfl
  | cons p rest ih =>
      rw [listLookup_cons] at h
      by_cases hp : p.1 = key
      · simp [hp] at h
      · simp [hp] at h
        have hpred : (decide (p.1 = key)) = false := by simp [hp]
        simp only [listErase, List.eraseP_cons, hpred, Bool.false_eq_true,
          if_false]
        simp only [listErase] at ih
        rw [ih h]
        simp

omit [Inhabited V] in
theorem lookup_mem {l : List (K × cacheItem V)} {key : K}
    {it : cacheItem V} (h : listLookup l key = some it) : (key, it) ∈ l := by
  induction l with
  | nil => simp [listLookup] at h
  | cons p rest ih =>
      rw [listLookup_cons] at h
      by_cases hp : p.1 = key
      · simp [hp] at h
        have : p = (key, it) := by
          cases p
          simp at hp h
          simp [hp, h]
        simp [this]
      · simp [hp] at h
        exact List.mem_cons_of_mem _ (ih h)

omit [Inhabited V] in
theorem lookup_unique_of_nodup {l : List (K × cacheItem V)} {key : K}
    {it : cacheItem V} (hnd : (l.map Prod.fst).Nodup)
    (hl : listLookup l key = some it) {p : K × cacheItem V}
    (hp : p ∈ l) (hk : p.1 = key) : p = (key, it) := by
  induction l with
  | nil => simp at hp
  | cons q rest ih =>
      rw [listLookup_cons] at hl
      rw [List.map_cons, List.nodup_cons] at hnd
      rcases hnd with ⟨hq, hrest⟩
      rcases List.mem_cons.mp hp with h | h
      · subst h
        rw [if_pos hk] at hl
        have h2 : p.2 = it := by simpa using hl
        cases p
        simp at hk h2
        simp [hk, h2]
      · by_cases hqk : q.1 = key
        · exfalso
          apply hq
          rw [hqk, ← hk]
          exact List.mem_map_of_mem Prod.fst h
        · simp [hqk] at hl
          exact ih hrest hl h

/-! ### Claim theorems for the sequential store operations -/

/-- C7: an entry is expired exactly when its ttl is positive and the time
since its insertion exceeds the ttl; an entry with zero or negative ttl is
never expired, no matter how old it is. -/
theorem c7_expired_iff (it : cacheItem V) (now : Int) :
    (it.expired now = true ↔ 0 < it.ttl ∧ it.ttl < now - it.added) ∧
    (it.ttl ≤ 0 → it.expired now = false) := by
  constructor
  · unfold cacheItem.expired
    by_cases h : it.ttl ≤ 0 <;> simp [h] <;> omega
  · intro h
    simp [cacheItem.expired, h]

omit [Inhabited V] in
/-- C5: `SetWithExpire` with a requested TTL below one time unit (zero or
negative) stores the entry with the cache's default TTL; the insertion
timestamp is the current time. -/
theorem c5_setWithExpire_default_ttl (c : Cache K V E) (key : K) (v : V)
    (expiration now : Int) (h : expiration < 1) :
    listLookup ((c.SetWithExpire key v expiration now).items) key =
      some ⟨v, c.ttl, now⟩ := by
  unfold Cache.SetWithExpire Cache.set
  by_cases h0 : expiration < 0
  · by_cases h1 : c.ttl < 1 <;>
      simp [h0, h1, listLookup_listInsert_self]
  · have h1 : expiration < 1 := h
    simp [h0, h1, listLookup_listInsert_self]

/-- C5 witness: a negative TTL on a cache with default TTL 9 stores the
entry with TTL 9. -/
theorem c5_setWithExpire_default_ttl_witness :
    (-3 : Int) < 1 ∧
    listLookup ((Cache.SetWithExpire ⟨[], 9, none⟩ 1 5 (-3) 2 :
      Cache Nat Nat Nat).items) 1 = some ⟨5, 9, 2⟩ :=
  ⟨by decide, c5_setWithExpire_default_ttl ⟨[], 9, none⟩ 1 5 (-3) 2 (by decide)⟩

/-- C1: immediately after `Set(k, v)` at time `t0`, and for every later
instant at which the entry's TTL (the cache default, since `Set` requests
TTL `0`) has not elapsed, `Get(k)` returns `(v, nil)`.  The cache `c` is
arbitrary, so this covers overwriting a key that already held a value, and
the stored binding shows the refreshed insertion timestamp `t0`. -/
theorem c1_set_then_get (c : Cache K V E) (key : K) (v : V) (t0 now : Int)
    (hlive : ¬ (0 < c.ttl ∧ c.ttl < now - t0)) :
    ((c.Set key v t0).Get key now).val = v ∧
    ((c.Set key v t0).Get key now).err = none ∧
    listLookup (c.Set key v t0).items key = some ⟨v, c.ttl, t0⟩ := by
  have hset : (c.Set key v t0).items = listInsert c.items key ⟨v, c.ttl, t0⟩ := by
    simp [Cache.Set, Cache.set]
  have hlook : listLookup (c.Set key v t0).items key = some ⟨v, c.ttl, t0⟩ := by
    rw [hset]
    exact listLookup_listInsert_self _ _ _
  have hexp : cacheItem.expired ⟨v, c.ttl, t0⟩ now = false := by
    unfold cacheItem.expired
    by_cases h : c.ttl ≤ 0
    · simp [h]
    · simp [h]
      omega
  refine ⟨?_, ?_, hlook⟩ <;>
    simp [Cache.Get, Cache.get, hlook, hexp]

/-- C1 witness: overwrite key 1 (old value 7, stale timestamp) at time 10 on
a cache with default TTL 5; reading at time 14 yields the new value 8. -/
theorem c1_set_then_get_witness :
    ¬ (0 < (5 : Int) ∧ (5 : Int) < 14 - 10) ∧
    (((⟨[(1, ⟨7, 5, 0⟩)], 5, none⟩ : Cache Nat Nat Nat).Set 1 8 10).Get
        1 14).val = 8 ∧
    (((⟨[(1, ⟨7, 5, 0⟩)], 5, none⟩ : Cache Nat Nat Nat).Set 1 8 10).Get
        1 14).err = none ∧
    listLookup ((⟨[(1, ⟨7, 5, 0⟩)], 5, none⟩ : Cache Nat Nat Nat).Set
        1 8 10).items 1 = some ⟨8, 5, 10⟩ :=
  ⟨by decide, c1_set_then_get ⟨[(1, ⟨7, 5, 0⟩)], 5, none⟩ 1 8 10 14 (by decide)⟩

/-- C10: `UpdateWithExpire` on a key whose entry is absent or expired ignores
the lookup failure, applies the function to the zero value and inserts the
result as a fresh entry; `Update` is `UpdateWithExpire` with TTL `0`. -/
theorem c10_update_absent_creates (c : Cache K V E) (key : K) (f : V → V)
    (expiration now : Int)
    (habs : ∀ it, listLookup c.items key = some it → it.expired now = true) :
    listLookup ((c.UpdateWithExpire key f expiration now).items) key =
      some ⟨f default, if expiration < 1 then c.ttl else expiration, now⟩ ∧
    (∀ key2 f2 now2, (c.Update key2 f2 now2 : Cache K V E) =
      c.UpdateWithExpire key2 f2 0 now2) := by
  refine ⟨?_, fun _ _ _ => rfl⟩
  unfold Cache.UpdateWithExpire Cache.set
  cases hlk : listLookup c.items key with
  | none =>
      by_cases h0 : expiration < 0
      · by_cases h2 : c.ttl < 1 <;>
          simp [Cache.get, hlk, h0, h2, listLookup_listInsert_self,
            show expiration < 1 by omega]
      · by_cases h1 : expiration < 1 <;>
          simp [Cache.get, hlk, h0, h1, listLookup_listInsert_self]
  | some it =>
      have he := habs it hlk
      by_cases h0 : expiration < 0
      · by_cases h2 : c.ttl < 1 <;>
          simp [Cache.get, hlk, he, h0, h2, listLookup_listInsert_self,
            show expiration < 1 by omega]
      · by_cases h1 : expiration < 1 <;>
          simp [Cache.get, hlk, he, h0, h1, listLookup_listInsert_self]

/-- C10 witness: updating the absent key 3 with the doubling-plus-one map on
a cache with default TTL 6 creates the entry `f 0 = 1` with TTL 6. -/
theorem c10_update_absent_creates_witness :
    listLookup (((⟨[], 6, none⟩ : Cache Nat Nat Nat).UpdateWithExpire 3
        (fun v => 2 * v + 1) 0 4).items) 3 =
      some ⟨1, if (0 : Int) < 1 then 6 else 0, 4⟩ ∧
    (∀ key2 f2 now2,
      ((⟨[], 6, none⟩ : Cache Nat Nat Nat).Update key2 f2 now2) =
        (⟨[], 6, none⟩ : Cache Nat Nat Nat).UpdateWithExpire key2 f2 0 now2) :=
  c10_update_absent_creates ⟨[], 6, none⟩ 3 (fun v => 2 * v + 1) 0 4
    (fun it hit => by simp [listLookup] at hit)

/-- C6: with no configured loader, `Get` on a key whose entry is absent or
expired deletes any expired entry, and returns the zero value with the
not-found error; when the key is altogether absent the deletion is a no-op,
so the map is left unchanged. -/
theorem c6_get_miss_deletes (c : Cache K V E) (key : K) (now : Int)
    (hl : c.loaderExpireFunc = none)
    (habs : ∀ it, listLookup c.items key = some it → it.expired now = true) :
    c.Get key now =
      ⟨{ c with items := listErase c.items key }, default, some .notFound⟩ ∧
    (listLookup c.items key = none → listErase c.items key = c.items) := by
  refine ⟨?_, fun h => listErase_of_lookup_none c.items key h⟩
  unfold Cache.Get Cache.get
  cases hlk : listLookup c.items key with
  | none =>
      rw [listErase_of_lookup_none c.items key hlk]
      simp [Cache.getWithLoader, hl]
      rw [← hl]
  | some it =>
      simp [habs it hlk, Cache.getWithLoader, hl]

/-- C6 witness: on a loaderless cache holding only an expired entry for
key 2, `Get 2` at time 50 removes the entry and reports not-found. -/
theorem c6_get_miss_deletes_witness :
    ((⟨[(2, ⟨9, 3, 0⟩)], 3, none⟩ : Cache Nat Nat Nat).Get 2 50) =
      ⟨⟨listErase [(2, ⟨9, 3, 0⟩)] 2, 3, none⟩, default, some .notFound⟩ ∧
    (listLookup [(2, (⟨9, 3, 0⟩ : cacheItem Nat))] 2 = none →
      listErase [(2, (⟨9, 3, 0⟩ : cacheItem Nat))] 2 = [(2, ⟨9, 3, 0⟩)]) :=
  c6_get_miss_deletes ⟨[(2, ⟨9, 3, 0⟩)], 3, none⟩ 2 50 rfl
    (fun it hit => by
      simp [listLookup, List.find?] at hit
      simp [← hit, cacheItem.expired])

/-- C4: when the configured loader reports an error for an absent key, `Get`
hands that very error back together with the zero value, and the store is
left untouched: nothing is written on the error path. -/
theorem c4_loader_error_passthrough (c : Cache K V E) (key : K)
    (lf : K → V × Option Int × Option E) (e : E) (now : Int)
    (hlf : c.loaderExpireFunc = some lf)
    (herr : (lf key).2.2 = some e)
    (habs : listLookup c.items key = none) :
    c.Get key now = ⟨c, default, some (.loader e)⟩ := by
  unfold Cache.Get Cache.get
  simp only [habs]
  unfold Cache.getWithLoader
  rw [hlf]
  unfold Cache.load Group.DoSeq Cache.get
  simp only [habs, herr]

/-- C4 witness: a loader that fails with error 42 on key 7 makes `Get 7`
return the zero value and error 42 while the (empty) store stays empty. -/
theorem c4_loader_error_passthrough_witness :
    listLookup ([] : List (Nat × cacheItem Nat)) 7 = none ∧
    ((⟨[], 5, some (fun _ => (0, none, some 42))⟩ : Cache Nat Nat Nat).Get
        7 11) =
      ⟨⟨[], 5, some (fun _ => (0, none, some 42))⟩, default,
        some (.loader 42)⟩ :=
  ⟨rfl, c4_loader_error_passthrough _ 7 (fun _ => (0, none, some 42)) 42 11
    rfl rfl rfl⟩

omit [Inhabited V] in
/-- C9: enumeration does not mutate — `Keys` and `Len` are functions of the
state alone (the Go bodies only read under a read lock, which the purely
functional signatures record).  An expired entry is excluded from
`Keys(true)` and from `Len(true)`, yet is still enumerated by `Keys(false)`
and counted by `Len(false)`, and its binding remains in the map. -/
theorem c9_enumeration_no_mutation (c : Cache K V E) (key : K)
    (it : cacheItem V) (now : Int)
    (hnd : (c.items.map Prod.fst).Nodup)
    (hl : listLookup c.items key = some it)
    (he : it.expired now = true) :
    key ∉ c.Keys true now ∧
    key ∈ c.Keys false now ∧
    c.Len false now = c.items.length ∧
    c.Len true now < c.items.length := by
  have hmem : (key, it) ∈ c.items := lookup_mem hl
  refine ⟨?_, ?_, ?_, ?_⟩
  · intro hmemk
    unfold Cache.Keys at hmemk
    simp at hmemk
    rcases hmemk with ⟨b, hb, hbe⟩
    have := lookup_unique_of_nodup hnd hl (p := (key, b)) hb rfl
    simp at this
    rw [this] at hbe
    rw [he] at hbe
    simp at hbe
  · unfold Cache.Keys
    simp
    exact ⟨it, hmem⟩
  · simp [Cache.Len]
  · unfold Cache.Len
    simp only [Bool.not_true, Bool.false_eq_true, if_false]
    refine List.length_filter_lt_length_iff_exists.mpr ?_
    exact ⟨(key, it), hmem, by simp [he]⟩

/-- C9 witness: a cache holding exactly one, expired, entry: key 4 is absent
from the filtered key list but present in the unfiltered one; the
unfiltered length is 1 and the filtered length is smaller. -/
theorem c9_enumeration_no_mutation_witness :
    (4 : Nat) ∉ (⟨[(4, ⟨1, 2, 0⟩)], 2, none⟩ : Cache Nat Nat Nat).Keys
        true 99 ∧
    (4 : Nat) ∈ (⟨[(4, ⟨1, 2, 0⟩)], 2, none⟩ : Cache Nat Nat Nat).Keys
        false 99 ∧
    (⟨[(4, ⟨1, 2, 0⟩)], 2, none⟩ : Cache Nat Nat Nat).Len false 99 = 1 ∧
    (⟨[(4, ⟨1, 2, 0⟩)], 2, none⟩ : Cache Nat Nat Nat).Len true 99 < 1 :=
  c9_enumeration_no_mutation ⟨[(4, ⟨1, 2, 0⟩)], 2, none⟩ 4 ⟨1, 2, 0⟩ 99
    (by decide) (by decide) (by decide)

/-!
### Interleaving semantics of the call-coalescing group (`singlecall.go`)

The claims about concurrent `Get` are settled on a small-step model of
`Group.Do`/`Group.call` for one key, with the store restricted to that key
and to entries that do not expire during the episode (the loader path writes
with the default no-expiry semantics of the model).  Each mutex-protected
region of the Go code is one atomic step:

* the entry section of `Do` (`g.mtx.Lock` … `g.mtx.Unlock`): re-check the
  store, then either hit, join the existing call record, or create a fresh
  record — the `start…` steps below;
* one loader execution (`fn()` inside `g.call`, the producer supplied by
  `getWithLoader`): the `run…` steps, followed by the store write
  (`c.set` inside the callback, under the store lock) on success;
* `c.val, c.err = …; c.wg.Done()`: publishing the result in the record —
  `finishStep` (waiters blocked in `c.wg.Wait()` can resume after it);
* `delete(g.m, key)` under `g.mtx`: `delStep`.

A removed record stays readable by waiters that already hold the pointer,
so records live in an `arena` and the group map `g.m[key]` is the optional
index `recIdx` into it — `Option` faithfully rendering that a Go map holds
at most one record per key at any instant.  A thread is a caller of `Do`
(blocking or not) or the goroutine `go g.call(…)` spawned by a non-blocking
primary caller.  `loads` counts started loader executions.

The current `load` (`src/unnamed/part_001`) passes the producer to
`Group.Do` with no recover, so a panicking loader kills its thread before
`wg.Done` and before the record removal (`runPanicDie`).  The historical
`load` (`src/unnamed/part_000`) wraps the producer with
`recover()`, turning the panic into an error result (`runPanicRec`); the
flag `recovers` selects between the two translations.
-/

namespace SF

/-- Outcome of one loader execution: a value, an error, or a panic. -/
inductive LoaderOut (V E : Type) where
  | ok (v : V)
  | err (e : E)
  | panicked
deriving DecidableEq, Repr

/-- Program counter of one thread walking through `Do`/`call`. -/
inductive TPC (V E : Type) where
  | start
  | waiting (i : Nat)
  | run (i : Nat)
  | write (i : Nat) (v : V)
  | finishCall (i : Nat) (r : V × Option (CacheErr E))
  | del (i : Nat) (r : V × Option (CacheErr E))
  | done (r : V × Bool × Option (CacheErr E))
  | exit
  | dead
deriving DecidableEq, Repr

/-- A thread: whether it is a caller of `Do` (as opposed to a spawned
background `g.call` goroutine), its blocking flag, and its position. -/
structure SFThread (V E : Type) where
  caller : Bool
  isWait : Bool
  pc : TPC V E
deriving DecidableEq, Repr

/-- Global state of the episode: the store entry for the key, the group map
entry (index of the in-flight record), all records ever created, the
threads, and the number of loader executions started. -/
structure SFState (V E : Type) where
  store : Option V
  recIdx : Option Nat
  arena : List (Option (V × Option (CacheErr E)))
  threads : List (SFThread V E)
  loads : Nat
deriving DecidableEq, Repr

variable {V E : Type}

/-- One atomic step of one thread, as described in the section header. -/
inductive SFStep [Inhabited V] (out : LoaderOut V E) (recovers : Bool) :
    Nat → SFState V E → SFState V E → Prop where
  | startHit (t : Nat) (s : SFState V E) (th : SFThread V E) (v : V) :
      s.threads.get? t = some th → th.pc = .start → s.store = some v →
      SFStep out recovers t s
        { s with
            threads := s.threads.set t { th with pc := .done (v, false, none) } }
  | startJoinWait (t : Nat) (s : SFState V E) (th : SFThread V E) (i : Nat) :
      s.threads.get? t = some th → th.pc = .start → th.isWait = true →
      s.store = none → s.recIdx = some i →
      SFStep out recovers t s
        { s with
            threads := s.threads.set t { th with pc := .waiting i } }
  | startJoinNoWait (t : Nat) (s : SFState V E) (th : SFThread V E) (i : Nat) :
      s.threads.get? t = some th → th.pc = .start → th.isWait = false →
      s.store = none → s.recIdx = some i →
      SFStep out recovers t s
        { s with
            threads := s.threads.set t
              { th with pc := .done (default, false, some .notFound) } }
  | startPrimaryWait (t : Nat) (s : SFState V E) (th : SFThread V E) :
      s.threads.get? t = some th → th.pc = .start → th.isWait = true →
      s.store = none → s.recIdx = none →
      SFStep out recovers t s
        { s with
            recIdx := some s.arena.length
            arena := s.arena ++ [none]
            threads := s.threads.set t { th with pc := .run s.arena.length } }
  | startPrimaryNoWait (t : Nat) (s : SFState V E) (th : SFThread V E) :
      s.threads.get? t = some th → th.pc = .start → th.isWait = false →
      s.store = none → s.recIdx = none →
      SFStep out recovers t s
        { s with
            recIdx := some s.arena.length
            arena := s.arena ++ [none]
            threads := (s.threads.set t
              { th with pc := .done (default, false, some .notFound) }) ++
                [⟨false, true, .run s.arena.length⟩] }
  | runOk (t : Nat) (s : SFState V E) (th : SFThread V E) (i : Nat) (v : V) :
      s.threads.get? t = some th → th.pc = .run i → out = .ok v →
      SFStep out recovers t s
        { s with
            loads := s.loads + 1
            threads := s.threads.set t { th with pc := .write i v } }
  | runErr (t : Nat) (s : SFState V E) (th : SFThread V E) (i : Nat) (e : E) :
      s.threads.get? t = some th → th.pc = .run i → out = .err e →
      SFStep out recovers t s
        { s with
            loads := s.loads + 1
            threads := s.threads.set t
              { th with pc := .finishCall i (default, some (.loader e)) } }
  | runPanicRec (t : Nat) (s : SFState V E) (th : SFThread V E) (i : Nat) :
      s.threads.get? t = some th → th.pc = .run i → out = .panicked →
      recovers = true →
      SFStep out recovers t s
        { s with
            loads := s.loads + 1
            threads := s.threads.set t
              { th with pc := .finishCall i (default, some .recovered) } }
  | runPanicDie (t : Nat) (s : SFState V E) (th : SFThread V E) (i : Nat) :
      s.threads.get? t = some th → th.pc = .run i → out = .panicked →
      recovers = false →
      SFStep out recovers t s
        { s with
            loads := s.loads + 1
            threads := s.threads.set t { th with pc := .dead } }
  | writeStep (t : Nat) (s : SFState V E) (th : SFThread V E) (i : Nat) (v : V) :
      s.threads.get? t = some th → th.pc = .write i v →
      SFStep out recovers t s
        { s with
            store := some v
            threads := s.threads.set t { th with pc := .finishCall i (v, none) } }
  | finishStep (t : Nat) (s : SFState V E) (th : SFThread V E) (i : Nat)
      (r : V × Option (CacheErr E)) :
      s.threads.get? t = some th → th.pc = .finishCall i r →
      SFStep out recovers t s
        { s with
            arena := s.arena.set i (some r)
            threads := s.threads.set t { th with pc := .del i r } }
  | delStep (t : Nat) (s : SFState V E) (th : SFThread V E) (i : Nat)
      (r : V × Option (CacheErr E)) :
      s.threads.get? t = some th → th.pc = .del i r →
      SFStep out recovers t s
        { s with
            recIdx := none
            threads := s.threads.set t
              { th with pc := if th.caller then .done (r.1, true, r.2) else .exit } }
  | waitDone (t : Nat) (s : SFState V E) (th : SFThread V E) (i : Nat)
      (r : V × Option (CacheErr E)) :
      s.threads.get? t = some th → th.pc = .waiting i →
      s.arena.get? i = some (some r) →
      SFStep out recovers t s
        { s with
            threads := s.threads.set t { th with pc := .done (r.1, false, r.2) } }

/-- Interleaved execution: reflexive-transitive closure of steps of any
thread. -/
abbrev SFMulti [Inhabited V] (out : LoaderOut V E) (recovers : Bool) :
    SFState V E → SFState V E → Prop :=
  Relation.ReflTransGen (fun a b => ∃ t, SFStep out recovers t a b)

/-- Initial state of an episode: empty store entry, no call record, one
`start` caller thread per requested blocking flag. -/
def initSF (ws : List Bool) : SFState V E :=
  ⟨none, none, [], ws.map (fun w => ⟨true, w, .start⟩), 0⟩

/-- Whether a thread's next step is a loader execution. -/
def isRunB (th : SFThread V E) : Bool :=
  match th.pc with
  | .run _ => true
  | _ => false

/-- Number of threads whose next step is a loader execution. -/
def countRun (l : List (SFThread V E)) : Nat :=
  l.countP isRunB

theorem countP_set_eq {α : Type} (p : α → Bool) (l : List α) (t : Nat)
    (a b : α) (h : l.get? t = some a) :
    (l.set t b).countP p + (if p a then 1 else 0) =
      l.countP p + (if p b then 1 else 0) := by
  induction l generalizing t with
  | nil => simp at h
  | cons c rest ih =>
      cases t with
      | zero =>
          have h2 : some c = some a := h
          injection h2 with h2
          subst h2
          cases hpa : p c <;> cases hpb : p b <;>
            simp [List.set, List.countP_cons, hpa, hpb] <;> omega
      | succ m =>
          have h2 : rest.get? m = some a := h
          have hr := ih m h2
          cases hpa : p a <;> cases hpb : p b <;> cases hpc : p c <;>
            simp [List.set, List.countP_cons, hpa, hpb, hpc] at hr ⊢ <;> omega

theorem countRun_set (l : List (SFThread V E)) (t : Nat)
    (a b : SFThread V E) (h : l.get? t = some a) :
    countRun (l.set t b) + (if isRunB a then 1 else 0) =
      countRun l + (if isRunB b then 1 else 0) :=
  countP_set_eq isRunB l t a b h

theorem countRun_append (l : List (SFThread V E)) (x : SFThread V E) :
    countRun (l ++ [x]) = countRun l + (if isRunB x then 1 else 0) := by
  simp [countRun, List.countP_append, List.countP_cons]

/-- Per-thread part of the invariant for an episode whose loader returns
`v` successfully. -/
def ThreadInvOk [Inhabited V] (v : V) (store : Option V) (loads : Nat)
    (th : SFThread V E) : Prop :=
  match th.pc with
  | .start => th.isWait = true ∧ th.caller = true
  | .waiting i => i = 0
  | .run i => i = 0
  | .write i u => i = 0 ∧ u = v ∧ 1 ≤ loads
  | .finishCall i r => i = 0 ∧ r = (v, none) ∧ store = some v ∧ 1 ≤ loads
  | .del i r => i = 0 ∧ r = (v, none) ∧ store = some v ∧ 1 ≤ loads
  | .done r => r.1 = v ∧ r.2.2 = none ∧ 1 ≤ loads
  | .exit => True
  | .dead => False

/-- Global invariant of an all-blocking episode whose loader returns `v`:
only one call record is ever created, the store can only hold `v`, the
record result can only be `(v, nil)`, and the loader execution count is
bounded by the number of records. -/
structure InvOk [Inhabited V] (v : V) (n : Nat) (s : SFState V E) : Prop where
  arenaLe : s.arena.length ≤ 1
  recZero : ∀ i, s.recIdx = some i → i = 0 ∧ s.arena.length = 1
  storeV : ∀ w, s.store = some w → w = v ∧ 1 ≤ s.loads
  recNone : s.recIdx = none → 1 ≤ s.arena.length → s.store = some v
  arenaRes : ∀ i r, s.arena.get? i = some (some r) → r = (v, none) ∧ 1 ≤ s.loads
  loadBound : s.loads + countRun s.threads ≤ s.arena.length
  tlen : s.threads.length = n
  tinv : ∀ th ∈ s.threads, ThreadInvOk v s.store s.loads th

theorem threadInvOk_mono [Inhabited V] {v : V} {st st2 : Option V}
    {l1 l2 : Nat} {th : SFThread V E} (hl : l1 ≤ l2)
    (hst : st = some v → st2 = some v)
    (h : ThreadInvOk v st l1 th) : ThreadInvOk v st2 l2 th := by
  obtain ⟨c, w, pc⟩ := th
  cases pc with
  | start => exact h
  | waiting i => exact h
  | run i => exact h
  | write i u =>
      obtain ⟨h1, h2, h3⟩ := h
      exact ⟨h1, h2, le_trans h3 hl⟩
  | finishCall i r =>
      obtain ⟨h1, h2, h3, h4⟩ := h
      exact ⟨h1, h2, hst h3, le_trans h4 hl⟩
  | del i r =>
      obtain ⟨h1, h2, h3, h4⟩ := h
      exact ⟨h1, h2, hst h3, le_trans h4 hl⟩
  | done r =>
      obtain ⟨h1, h2, h3⟩ := h
      exact ⟨h1, h2, le_trans h3 hl⟩
  | exit => exact h
  | dead => exact h

theorem get?_set_lookup {A : Type} (l : List A) (i j : Nat) (a b : A)
    (h : (l.set i a).get? j = some b) :
    (i = j ∧ b = a) ∨ l.get? j = some b := by
  induction l generalizing i j with
  | nil => simp [List.set] at h
  | cons c rest ih =>
      cases i with
      | zero =>
          cases j with
          | zero =>
              have h2 : some a = some b := h
              injection h2 with h2
              exact Or.inl ⟨rfl, h2.symm⟩
          | succ m => exact Or.inr h
      | succ i2 =>
          cases j with
          | zero => exact Or.inr h
          | succ m =>
              have h2 : (rest.set i2 a).get? m = some b := h
              rcases ih i2 m h2 with ⟨hh, hb⟩ | hh
              · exact Or.inl ⟨by omega, hb⟩
              · exact Or.inr hh

theorem invOk_step [Inhabited V] {v : V} {n t : Nat} {s s2 : SFState V E}
    (hI : InvOk v n s) (hs : SFStep (LoaderOut.ok v) false t s s2) :
    InvOk v n s2 := by
  obtain ⟨A1, A2, A3, A4, A5, A6, A7, A8⟩ := hI
  cases hs with
  | startHit th w h1 h2 h3 =>
      have hra : isRunB th = false := by simp [isRunB, h2]
      have hrb : isRunB ({ th with pc := TPC.done (w, false, none) } :
          SFThread V E) = false := by
        simp [isRunB]
      have hcr := countRun_set s.threads t th
        { th with pc := .done (w, false, none) } h1
      simp [hra, hrb] at hcr
      refine ⟨A1, A2, A3, A4, A5, by simp only [hcr]; exact A6,
        by simp [List.length_set, A7], ?_⟩
      intro th2 hmem
      rcases List.mem_or_eq_of_mem_set hmem with hold | hnew
      · exact A8 th2 hold
      · subst hnew
        obtain ⟨hw2, hl2⟩ := A3 w h3
        exact ⟨hw2, rfl, hl2⟩
  | startJoinWait th i h1 h2 h3 h4 h5 =>
      have hra : isRunB th = false := by simp [isRunB, h2]
      have hrb : isRunB ({ th with pc := TPC.waiting i } : SFThread V E) =
          false := by
        simp [isRunB]
      have hcr := countRun_set s.threads t th { th with pc := .waiting i } h1
      simp [hra, hrb] at hcr
      refine ⟨A1, A2, A3, A4, A5, by simp only [hcr]; exact A6,
        by simp [List.length_set, A7], ?_⟩
      intro th2 hmem
      rcases List.mem_or_eq_of_mem_set hmem with hold | hnew
      · exact A8 th2 hold
      · subst hnew
        exact (A2 i h5).1
  | startJoinNoWait th i h1 h2 h3 h4 h5 =>
      have hth := A8 th (List.get?_mem h1)
      simp [ThreadInvOk, h2, h3] at hth
  | startPrimaryWait th h1 h2 h3 h4 h5 =>
      have hlen0 : s.arena.length = 0 := by
        by_contra hc
        have := A4 h5 (by omega)
        rw [h4] at this
        exact Option.noConfusion this
      have harena : s.arena = [] := List.length_eq_zero.mp hlen0
      have hra : isRunB th = false := by simp [isRunB, h2]
      have hrb : isRunB ({ th with pc := TPC.run s.arena.length } :
          SFThread V E) = true := by
        simp [isRunB]
      have hcr := countRun_set s.threads t th
        { th with pc := .run s.arena.length } h1
      simp [hra, hrb] at hcr
      rw [hlen0] at A6
      refine ⟨?_, ?_, ?_, ?_, ?_, ?_, by simp [List.length_set, A7], ?_⟩
      · simp [harena]
      · intro i hi
        have hii : s.arena.length = i := by injection hi
        constructor
        · omega
        · simp [harena]
      · intro w hw
        rw [h4] at hw
        exact Option.noConfusion hw
      · intro hnone
        exact absurd hnone (by simp)
      · intro i r hi
        rw [harena] at hi
        cases i <;> simp [List.get?] at hi
      · dsimp only
        have hlen2 : (s.arena ++ [none]).length = s.arena.length + 1 := by simp
        rw [hlen2]
        omega
      · intro th2 hmem
        rcases List.mem_or_eq_of_mem_set hmem with hold | hnew
        · exact A8 th2 hold
        · subst hnew
          exact hlen0
  | startPrimaryNoWait th h1 h2 h3 h4 h5 =>
      have hth := A8 th (List.get?_mem h1)
      simp [ThreadInvOk, h2, h3] at hth
  | runOk th i w h1 h2 h3 =>
      injection h3 with h3
      subst h3
      have hth := A8 th (List.get?_mem h1)
      have hi0 : i = 0 := by simpa [ThreadInvOk, h2] using hth
      have hra : isRunB th = true := by simp [isRunB, h2]
      have hrb : isRunB ({ th with pc := TPC.write i v } : SFThread V E) =
          false := by
        simp [isRunB]
      have hcr := countRun_set s.threads t th { th with pc := .write i v } h1
      simp [hra, hrb] at hcr
      refine ⟨A1, A2, ?_, A4, ?_, ?_, by simp [List.length_set, A7], ?_⟩
      · intro w2 hw2
        obtain ⟨ha, hb⟩ := A3 w2 hw2
        exact ⟨ha, by omega⟩
      · intro j r hj
        obtain ⟨ha, hb⟩ := A5 j r hj
        exact ⟨ha, by omega⟩
      · dsimp only
        omega
      · intro th2 hmem
        rcases List.mem_or_eq_of_mem_set hmem with hold | hnew
        · exact threadInvOk_mono (by omega) (fun h => h) (A8 th2 hold)
        · subst hnew
          exact ⟨hi0, rfl, by dsimp only; omega⟩
  | runErr th i e h1 h2 h3 => simp at h3
  | runPanicRec th i h1 h2 h3 h4 => simp at h3
  | runPanicDie th i h1 h2 h3 h4 => simp at h3
  | writeStep th i w h1 h2 =>
      have hth := A8 th (List.get?_mem h1)
      simp only [ThreadInvOk, h2] at hth
      obtain ⟨hi0, hwv, hld⟩ := hth
      subst hwv
      have hra : isRunB th = false := by simp [isRunB, h2]
      have hrb : isRunB ({ th with pc := TPC.finishCall i (w, none) } :
          SFThread V E) = false := by
        simp [isRunB]
      have hcr := countRun_set s.threads t th
        { th with pc := .finishCall i (w, none) } h1
      simp [hra, hrb] at hcr
      refine ⟨A1, A2, ?_, ?_, A5, by simp only [hcr]; exact A6,
        by simp [List.length_set, A7], ?_⟩
      · intro w2 hw2
        have : w = w2 := by injection hw2
        exact ⟨this.symm, hld⟩
      · intro _ _
        rfl
      · intro th2 hmem
        rcases List.mem_or_eq_of_mem_set hmem with hold | hnew
        · exact threadInvOk_mono le_rfl (fun _ => rfl) (A8 th2 hold)
        · subst hnew
          exact ⟨hi0, rfl, rfl, hld⟩
  | finishStep th i r h1 h2 =>
      have hth := A8 th (List.get?_mem h1)
      simp only [ThreadInvOk, h2] at hth
      obtain ⟨hi0, hr, hst, hld⟩ := hth
      have hra : isRunB th = false := by simp [isRunB, h2]
      have hrb : isRunB ({ th with pc := TPC.del i r } : SFThread V E) =
          false := by
        simp [isRunB]
      have hcr := countRun_set s.threads t th { th with pc := .del i r } h1
      simp [hra, hrb] at hcr
      refine ⟨by simp [List.length_set, A1], ?_, A3, ?_, ?_,
        ?_, by simp [List.length_set, A7], ?_⟩
      · intro j hj
        obtain ⟨hj0, hjl⟩ := A2 j hj
        exact ⟨hj0, by simp [List.length_set, hjl]⟩
      · intro ha hb
        simp only [List.length_set] at hb
        exact A4 ha hb
      · intro j r2 hj
        rcases get?_set_lookup s.arena i j (some r) (some r2) hj with ⟨hij, hb⟩ | hh
        · injection hb with hb
          subst hb
          exact ⟨hr, hld⟩
        · exact A5 j r2 hh
      · simp only [List.length_set, hcr]
        exact A6
      · intro th2 hmem
        rcases List.mem_or_eq_of_mem_set hmem with hold | hnew
        · exact A8 th2 hold
        · subst hnew
          exact ⟨hi0, hr, hst, hld⟩
  | delStep th i r h1 h2 =>
      have hth := A8 th (List.get?_mem h1)
      simp only [ThreadInvOk, h2] at hth
      obtain ⟨hi0, hr, hst, hld⟩ := hth
      have hra : isRunB th = false := by simp [isRunB, h2]
      have hrb : isRunB
          ({ th with pc := if th.caller then TPC.done (r.1, true, r.2) else .exit } :
            SFThread V E) = false := by
        cases th.caller <;> simp [isRunB]
      have hcr := countRun_set s.threads t th
        { th with pc := if th.caller then TPC.done (r.1, true, r.2) else .exit } h1
      simp [hra, hrb] at hcr
      refine ⟨A1, ?_, A3, ?_, A5, by simp only [hcr]; exact A6,
        by simp [List.length_set, A7], ?_⟩
      · intro j hj
        exact Option.noConfusion hj
      · intro _ _
        exact hst
      · intro th2 hmem
        rcases List.mem_or_eq_of_mem_set hmem with hold | hnew
        · exact A8 th2 hold
        · subst hnew
          subst hr
          cases hc : th.caller <;> simp [ThreadInvOk, hc] <;> exact hld
  | waitDone th i r h1 h2 h3 =>
      obtain ⟨hr, hld⟩ := A5 i r h3
      have hra : isRunB th = false := by simp [isRunB, h2]
      have hrb : isRunB ({ th with pc := TPC.done (r.1, false, r.2) } :
          SFThread V E) = false := by
        simp [isRunB]
      have hcr := countRun_set s.threads t th
        { th with pc := .done (r.1, false, r.2) } h1
      simp [hra, hrb] at hcr
      refine ⟨A1, A2, A3, A4, A5, by simp only [hcr]; exact A6,
        by simp [List.length_set, A7], ?_⟩
      intro th2 hmem
      rcases List.mem_or_eq_of_mem_set hmem with hold | hnew
      · exact A8 th2 hold
      · subst hnew
        subst hr
        exact ⟨rfl, rfl, hld⟩

theorem invOk_init [Inhabited V] (v : V) (n : Nat) :
    InvOk v n (initSF (List.replicate n true) : SFState V E) := by
  have hcr0 : countRun (List.replicate n
      (⟨true, true, .start⟩ : SFThread V E)) = 0 := by
    rw [countRun, List.countP_eq_zero]
    intro a ha
    rw [List.eq_of_mem_replicate ha]
    simp [isRunB]
  refine ⟨by simp [initSF], ?_, ?_, ?_, ?_, ?_, by simp [initSF], ?_⟩
  · intro i hi
    simp [initSF] at hi
  · intro w hw
    simp [initSF] at hw
  · intro _ h
    simp [initSF] at h
  · intro i r hi
    simp [initSF, List.get?] at hi
  · simp [initSF, hcr0]
  · intro th hmem
    simp only [initSF] at hmem
    obtain ⟨w, hw, rfl⟩ := List.mem_map.mp hmem
    exact ⟨List.eq_of_mem_replicate hw, rfl⟩

theorem invOk_reach [Inhabited V] {v : V} {n : Nat} {s : SFState V E}
    (h : SFMulti (LoaderOut.ok v) false (initSF (List.replicate n true)) s) :
    InvOk v n s := by
  induction h with
  | refl => exact invOk_init v n
  | tail hab hbc ih =>
      obtain ⟨t, hstep⟩ := hbc
      exact invOk_step ih hstep

/-- Per-thread part of the invariant for an episode whose loader fails
with error `e`. -/
def ThreadInvErr [Inhabited V] (e : E) (th : SFThread V E) : Prop :=
  match th.pc with
  | .start => th.isWait = true ∧ th.caller = true
  | .write _ _ => False
  | .finishCall _ r => r = (default, some (.loader e))
  | .del _ r => r = (default, some (.loader e))
  | .done r => r.1 = default ∧ r.2.2 = some (.loader e)
  | .dead => False
  | _ => True

/-- Global invariant of an all-blocking episode whose loader fails with
`e`: the store is never written and every published result is the pair
`(zero, e)`. -/
structure InvErr [Inhabited V] (e : E) (s : SFState V E) : Prop where
  storeNone : s.store = none
  arenaRes : ∀ i r, s.arena.get? i = some (some r) →
    r = (default, some (.loader e))
  tinv : ∀ th ∈ s.threads, ThreadInvErr e th

theorem invErr_step [Inhabited V] {e : E} {t : Nat} {s s2 : SFState V E}
    (hI : InvErr e s) (hs : SFStep (LoaderOut.err e) false t s s2) :
    InvErr e s2 := by
  obtain ⟨J1, J2, J3⟩ := hI
  cases hs with
  | startHit th w h1 h2 h3 =>
      rw [J1] at h3
      exact Option.noConfusion h3
  | startJoinWait th i h1 h2 h3 h4 h5 =>
      refine ⟨J1, J2, ?_⟩
      intro th2 hmem
      rcases List.mem_or_eq_of_mem_set hmem with hold | hnew
      · exact J3 th2 hold
      · subst hnew
        trivial
  | startJoinNoWait th i h1 h2 h3 h4 h5 =>
      have hth := J3 th (List.get?_mem h1)
      simp [ThreadInvErr, h2, h3] at hth
  | startPrimaryWait th h1 h2 h3 h4 h5 =>
      refine ⟨J1, ?_, ?_⟩
      · intro i r hi
        by_cases hlt : i < s.arena.length
        · rw [List.get?_append hlt] at hi
          exact J2 i r hi
        · rw [List.get?_append_right (le_of_not_lt hlt)] at hi
          rcases hsub : i - s.arena.length with m | m
          · rw [hsub] at hi
            have hi2 : some (none : Option (V × Option (CacheErr E))) =
                some (some r) := hi
            injection hi2 with hi2
            exact Option.noConfusion hi2
          · rw [hsub] at hi
            simp [List.get?] at hi
      · intro th2 hmem
        rcases List.mem_or_eq_of_mem_set hmem with hold | hnew
        · exact J3 th2 hold
        · subst hnew
          trivial
  | startPrimaryNoWait th h1 h2 h3 h4 h5 =>
      have hth := J3 th (List.get?_mem h1)
      simp [ThreadInvErr, h2, h3] at hth
  | runOk th i w h1 h2 h3 => simp at h3
  | runErr th i e2 h1 h2 h3 =>
      injection h3 with h3
      subst h3
      refine ⟨J1, J2, ?_⟩
      intro th2 hmem
      rcases List.mem_or_eq_of_mem_set hmem with hold | hnew
      · exact J3 th2 hold
      · subst hnew
        rfl
  | runPanicRec th i h1 h2 h3 h4 => simp at h3
  | runPanicDie th i h1 h2 h3 h4 => simp at h3
  | writeStep th i w h1 h2 =>
      have hth := J3 th (List.get?_mem h1)
      simp [ThreadInvErr, h2] at hth
  | finishStep th i r h1 h2 =>
      have hth := J3 th (List.get?_mem h1)
      simp only [ThreadInvErr, h2] at hth
      refine ⟨J1, ?_, ?_⟩
      · intro j r2 hj
        rcases get?_set_lookup s.arena i j (some r) (some r2) hj with ⟨hij, hb⟩ | hh
        · injection hb with hb
          subst hb
          exact hth
        · exact J2 j r2 hh
      · intro th2 hmem
        rcases List.mem_or_eq_of_mem_set hmem with hold | hnew
        · exact J3 th2 hold
        · subst hnew
          exact hth
  | delStep th i r h1 h2 =>
      have hth := J3 th (List.get?_mem h1)
      simp only [ThreadInvErr, h2] at hth
      refine ⟨J1, J2, ?_⟩
      intro th2 hmem
      rcases List.mem_or_eq_of_mem_set hmem with hold | hnew
      · exact J3 th2 hold
      · subst hnew
        subst hth
        cases hc : th.caller <;> simp [ThreadInvErr, hc]
  | waitDone th i r h1 h2 h3 =>
      have hr := J2 i r h3
      refine ⟨J1, J2, ?_⟩
      intro th2 hmem
      rcases List.mem_or_eq_of_mem_set hmem with hold | hnew
      · exact J3 th2 hold
      · subst hnew
        subst hr
        exact ⟨rfl, rfl⟩

theorem invErr_init [Inhabited V] (e : E) (n : Nat) :
    InvErr e (initSF (List.replicate n true) : SFState V E) := by
  refine ⟨rfl, ?_, ?_⟩
  · intro i r hi
    simp [initSF, List.get?] at hi
  · intro th hmem
    simp only [initSF] at hmem
    obtain ⟨w, hw, rfl⟩ := List.mem_map.mp hmem
    exact ⟨List.eq_of_mem_replicate hw, rfl⟩

theorem invErr_reach [Inhabited V] {e : E} {n : Nat} {s : SFState V E}
    (h : SFMulti (LoaderOut.err e) false (initSF (List.replicate n true)) s) :
    InvErr e s := by
  induction h with
  | refl => exact invErr_init e n
  | tail hab hbc ih =>
      obtain ⟨t, hstep⟩ := hbc
      exact invErr_step ih hstep

/-! ### Claim theorems for the coalescing group -/

/-- C2 (amended): in any interleaving of `n` blocking `Get` callers on a key
with no entry, (a) with a loader that returns `v` successfully, at most one
call record is ever created, the loader runs at most once — exactly once by
the time every caller has returned — and every caller receives `(v, nil)`;
(b) with a loader that fails with `e`, every caller receives the
loader-produced pair `(zero, e)` (the same pair for all callers), though the
loader itself may run more than once.  The group map holds at most one
record per key at any instant by construction (`recIdx : Option Nat`). -/
theorem c2_coalescing_amended (V E : Type) [Inhabited V] :
    (∀ (n : Nat) (v : V) (s : SFState V E),
      SFMulti (LoaderOut.ok v) false (initSF (List.replicate n true)) s →
      s.loads ≤ 1 ∧ s.arena.length ≤ 1 ∧
      (∀ th ∈ s.threads, ∀ r, th.pc = .done r → r.1 = v ∧ r.2.2 = none) ∧
      ((∀ th ∈ s.threads, ∃ r, th.pc = .done r) → 1 ≤ n → s.loads = 1)) ∧
    (∀ (n : Nat) (e : E) (s : SFState V E),
      SFMulti (LoaderOut.err e) false (initSF (List.replicate n true)) s →
      ∀ th ∈ s.threads, ∀ r, th.pc = .done r →
        r.1 = default ∧ r.2.2 = some (.loader e)) := by
  constructor
  · intro n v s h
    obtain ⟨A1, A2, A3, A4, A5, A6, A7, A8⟩ := invOk_reach h
    refine ⟨by omega, A1, ?_, ?_⟩
    · intro th hm r hpc
      have := A8 th hm
      simp only [ThreadInvOk, hpc] at this
      exact ⟨this.1, this.2.1⟩
    · intro hdone hn
      have hne : s.threads ≠ [] := by
        intro hc
        rw [hc] at A7
        simp at A7
        omega
      obtain ⟨th, hth⟩ := List.exists_mem_of_ne_nil s.threads hne
      obtain ⟨r, hpc⟩ := hdone th hth
      have := A8 th hth
      simp only [ThreadInvOk, hpc] at this
      omega
  · intro n e s h th hm r hpc
    have := (invErr_reach h).tinv th hm
    simp only [ThreadInvErr, hpc] at this
    exact ⟨this.1, this.2⟩

/-- C2 witness: the amended theorem applied at the one-caller initial
states themselves (the empty trace). -/
theorem c2_coalescing_amended_witness :
    ((initSF (List.replicate 1 true) : SFState Nat Nat).loads ≤ 1 ∧
      (initSF (List.replicate 1 true) : SFState Nat Nat).arena.length ≤ 1 ∧
      (∀ th ∈ (initSF (List.replicate 1 true) : SFState Nat Nat).threads,
        ∀ r, th.pc = .done r → r.1 = 3 ∧ r.2.2 = none) ∧
      ((∀ th ∈ (initSF (List.replicate 1 true) : SFState Nat Nat).threads,
        ∃ r, th.pc = .done r) → 1 ≤ 1 →
        (initSF (List.replicate 1 true) : SFState Nat Nat).loads = 1)) ∧
    (∀ th ∈ (initSF (List.replicate 1 true) : SFState Nat Nat).threads,
      ∀ r, th.pc = .done r → r.1 = 0 ∧ r.2.2 = some (.loader 7)) :=
  ⟨(c2_coalescing_amended Nat Nat).1 1 3 _ Relation.ReflTransGen.refl,
   (c2_coalescing_amended Nat Nat).2 1 7 _ Relation.ReflTransGen.refl⟩

/-- C2 counterexample: two blocking callers, both starting on an empty store
with a loader that fails with error `7`, can interleave so that the loader
executes twice — the claim's unconditional "the loader executes exactly
once" is false (the second caller's entry section can run after the first
failed call's record was removed, starting a fresh load). -/
theorem c2_exactly_once_cx :
    SFMulti (LoaderOut.err 7) false (initSF [true, true] : SFState Nat Nat)
      ⟨none, none,
        [some (0, some (.loader 7)), some (0, some (.loader 7))],
        [⟨true, true, .done (0, true, some (.loader 7))⟩,
         ⟨true, true, .done (0, true, some (.loader 7))⟩], 2⟩ ∧
    (∀ th ∈ ([⟨true, true, .done ((0 : Nat), true, some (.loader (7 : Nat)))⟩,
        ⟨true, true, .done (0, true, some (.loader 7))⟩] :
          List (SFThread Nat Nat)), ∃ r, th.pc = .done r) ∧
    (2 : Nat) ≠ 1 := by
  refine ⟨?_, by simp, by decide⟩
  refine Relation.ReflTransGen.head
    ⟨0, .startPrimaryWait 0 _ ⟨true, true, .start⟩ rfl rfl rfl rfl rfl⟩ ?_
  refine Relation.ReflTransGen.head
    ⟨0, .runErr 0 _ ⟨true, true, .run 0⟩ 0 7 rfl rfl rfl⟩ ?_
  refine Relation.ReflTransGen.head
    ⟨0, .finishStep 0 _ ⟨true, true, .finishCall 0 (0, some (.loader 7))⟩ 0
      (0, some (.loader 7)) rfl rfl⟩ ?_
  refine Relation.ReflTransGen.head
    ⟨0, .delStep 0 _ ⟨true, true, .del 0 (0, some (.loader 7))⟩ 0
      (0, some (.loader 7)) rfl rfl⟩ ?_
  refine Relation.ReflTransGen.head
    ⟨1, .startPrimaryWait 1 _ ⟨true, true, .start⟩ rfl rfl rfl rfl rfl⟩ ?_
  refine Relation.ReflTransGen.head
    ⟨1, .runErr 1 _ ⟨true, true, .run 1⟩ 1 7 rfl rfl rfl⟩ ?_
  refine Relation.ReflTransGen.head
    ⟨1, .finishStep 1 _ ⟨true, true, .finishCall 1 (0, some (.loader 7))⟩ 1
      (0, some (.loader 7)) rfl rfl⟩ ?_
  refine Relation.ReflTransGen.head
    ⟨1, .delStep 1 _ ⟨true, true, .del 1 (0, some (.loader 7))⟩ 1
      (0, some (.loader 7)) rfl rfl⟩ ?_
  exact Relation.ReflTransGen.refl

/-- C8: in non-blocking mode a caller of `Do` that misses the store returns
`(zero, false, NotFound)` in its very first (and only) step — both when a
call record already exists (it does not wait) and when it becomes primary;
and in the primary case the spawned background producer, on success, writes
the loader value into the store for future readers while this caller's
result stays `(zero, false, NotFound)` (the concrete one-caller trace). -/
theorem c8_nonblocking_do (out : LoaderOut Nat Nat) (rec : Bool)
    (s s2 : SFState Nat Nat) (t : Nat) (th : SFThread Nat Nat)
    (hth : s.threads.get? t = some th) (hw : th.isWait = false)
    (hpc : th.pc = .start) (hst : s.store = none)
    (hs : SFStep out rec t s s2) :
    s2.threads.get? t =
      some { th with pc := .done (default, false, some .notFound) } ∧
    SFMulti (LoaderOut.ok 5) false (initSF [false] : SFState Nat Nat)
      ⟨some 5, none, [some (5, none)],
        [⟨true, false, .done (0, false, some .notFound)⟩,
         ⟨false, true, .exit⟩], 1⟩ := by
  have hB : SFMulti (LoaderOut.ok 5) false (initSF [false] : SFState Nat Nat)
      ⟨some 5, none, [some (5, none)],
        [⟨true, false, .done (0, false, some .notFound)⟩,
         ⟨false, true, .exit⟩], 1⟩ := by
    refine Relation.ReflTransGen.head
      ⟨0, .startPrimaryNoWait 0 _ ⟨true, false, .start⟩ rfl rfl rfl rfl rfl⟩ ?_
    refine Relation.ReflTransGen.head
      ⟨1, .runOk 1 _ ⟨false, true, .run 0⟩ 0 5 rfl rfl rfl⟩ ?_
    refine Relation.ReflTransGen.head
      ⟨1, .writeStep 1 _ ⟨false, true, .write 0 5⟩ 0 5 rfl rfl⟩ ?_
    refine Relation.ReflTransGen.head
      ⟨1, .finishStep 1 _ ⟨false, true, .finishCall 0 (5, none)⟩ 0 (5, none)
        rfl rfl⟩ ?_
    refine Relation.ReflTransGen.head
      ⟨1, .delStep 1 _ ⟨false, true, .del 0 (5, none)⟩ 0 (5, none) rfl rfl⟩ ?_
    exact Relation.ReflTransGen.refl
  have hlt : t < s.threads.length := by
    by_contra hc
    rw [List.get?_eq_none.mpr (le_of_not_lt hc)] at hth
    exact Option.noConfusion hth
  refine ⟨?_, hB⟩
  cases hs with
  | startHit th2 v h1 h2 h3 =>
      rw [hth] at h1
      injection h1 with h1
      subst h1
      rw [hst] at h3
      exact Option.noConfusion h3
  | startJoinWait th2 i h1 h2 h3 h4 h5 =>
      rw [hth] at h1
      injection h1 with h1
      subst h1
      rw [hw] at h3
      exact Bool.noConfusion h3
  | startJoinNoWait th2 i h1 h2 h3 h4 h5 =>
      rw [hth] at h1
      injection h1 with h1
      subst h1
      rw [List.get?_set_eq, hth]
      rfl
  | startPrimaryWait th2 h1 h2 h3 h4 h5 =>
      rw [hth] at h1
      injection h1 with h1
      subst h1
      rw [hw] at h3
      exact Bool.noConfusion h3
  | startPrimaryNoWait th2 h1 h2 h3 h4 h5 =>
      rw [hth] at h1
      injection h1 with h1
      subst h1
      rw [List.get?_append (by simpa using hlt), List.get?_set_eq, hth]
      rfl
  | runOk th2 i v h1 h2 h3 =>
      rw [hth] at h1
      injection h1 with h1
      subst h1
      rw [hpc] at h2
      exact TPC.noConfusion h2
  | runErr th2 i e h1 h2 h3 =>
      rw [hth] at h1
      injection h1 with h1
      subst h1
      rw [hpc] at h2
      exact TPC.noConfusion h2
  | runPanicRec th2 i h1 h2 h3 h4 =>
      rw [hth] at h1
      injection h1 with h1
      subst h1
      rw [hpc] at h2
      exact TPC.noConfusion h2
  | runPanicDie th2 i h1 h2 h3 h4 =>
      rw [hth] at h1
      injection h1 with h1
      subst h1
      rw [hpc] at h2
      exact TPC.noConfusion h2
  | writeStep th2 i v h1 h2 =>
      rw [hth] at h1
      injection h1 with h1
      subst h1
      rw [hpc] at h2
      exact TPC.noConfusion h2
  | finishStep th2 i r h1 h2 =>
      rw [hth] at h1
      injection h1 with h1
      subst h1
      rw [hpc] at h2
      exact TPC.noConfusion h2
  | delStep th2 i r h1 h2 =>
      rw [hth] at h1
      injection h1 with h1
      subst h1
      rw [hpc] at h2
      exact TPC.noConfusion h2
  | waitDone th2 i r h1 h2 h3 =>
      rw [hth] at h1
      injection h1 with h1
      subst h1
      rw [hpc] at h2
      exact TPC.noConfusion h2

/-- C8 witness: the theorem applied to the concrete first step of the
one-non-blocking-caller episode. -/
theorem c8_nonblocking_do_witness :
    ((⟨none, some 0, [none],
        [⟨true, false, .done (0, false, some .notFound)⟩,
         ⟨false, true, .run 0⟩], 0⟩ : SFState Nat Nat)).threads.get? 0 =
      some ⟨true, false, .done (default, false, some .notFound)⟩ ∧
    SFMulti (LoaderOut.ok 5) false (initSF [false] : SFState Nat Nat)
      ⟨some 5, none, [some (5, none)],
        [⟨true, false, .done (0, false, some .notFound)⟩,
         ⟨false, true, .exit⟩], 1⟩ :=
  c8_nonblocking_do (LoaderOut.ok 5) false (initSF [false]) _ 0
    ⟨true, false, .start⟩ rfl rfl rfl rfl
    (.startPrimaryNoWait 0 _ ⟨true, false, .start⟩ rfl rfl rfl rfl rfl)

/-- C3: the current `load` (`src/unnamed/part_001`) passes the producer to
the group without a recover, so a panicking loader leaves its thread dead
before `wg.Done` and before the record removal: the call record for the key
is orphaned (`recIdx` stays set), a concurrent blocking caller is stuck in
`waiting`, and the reached state has no step at all — the key is wedged,
contradicting the claim.  The historical `load` (`src/unnamed/part_000`)
wraps the producer with `recover()`: the same schedule then delivers the
converted panic error to every waiter and removes the record. -/
theorem c3_panic_orphans_record :
    (SFMulti LoaderOut.panicked false (initSF [true, true] : SFState Nat Nat)
      ⟨none, some 0, [none],
        [⟨true, true, .dead⟩, ⟨true, true, .waiting 0⟩], 1⟩ ∧
     (∀ (t : Nat) (s2 : SFState Nat Nat),
       ¬ SFStep LoaderOut.panicked false t
         ⟨none, some 0, [none],
           [⟨true, true, .dead⟩, ⟨true, true, .waiting 0⟩], 1⟩ s2)) ∧
    (SFMulti LoaderOut.panicked true (initSF [true, true] : SFState Nat Nat)
      ⟨none, none, [some (0, some .recovered)],
        [⟨true, true, .done (0, true, some .recovered)⟩,
         ⟨true, true, .done (0, false, some .recovered)⟩], 1⟩) := by
  refine ⟨⟨?_, ?_⟩, ?_⟩
  · refine Relation.ReflTransGen.head
      ⟨0, .startPrimaryWait 0 _ ⟨true, true, .start⟩ rfl rfl rfl rfl rfl⟩ ?_
    refine Relation.ReflTransGen.head
      ⟨1, .startJoinWait 1 _ ⟨true, true, .start⟩ 0 rfl rfl rfl rfl rfl⟩ ?_
    refine Relation.ReflTransGen.head
      ⟨0, .runPanicDie 0 _ ⟨true, true, .run 0⟩ 0 rfl rfl rfl rfl⟩ ?_
    exact Relation.ReflTransGen.refl
  · intro t s2 hs
    have hpcs : ∀ (t2 : Nat) (th : SFThread Nat Nat),
        ([⟨true, true, .dead⟩, ⟨true, true, .waiting 0⟩] :
          List (SFThread Nat Nat)).get? t2 = some th →
        th.pc = TPC.dead ∨ th.pc = TPC.waiting 0 := by
      intro t2 th h
      match t2 with
      | 0 =>
          injection h with h
          rw [← h]
          exact Or.inl rfl
      | 1 =>
          injection h with h
          rw [← h]
          exact Or.inr rfl
      | (m + 2) => simp [List.get?] at h
    cases hs with
    | startHit th v h1 h2 h3 =>
        rcases hpcs t th h1 with h | h <;> rw [h2] at h <;> exact TPC.noConfusion h
    | startJoinWait th i h1 h2 h3 h4 h5 =>
        rcases hpcs t th h1 with h | h <;> rw [h2] at h <;> exact TPC.noConfusion h
    | startJoinNoWait th i h1 h2 h3 h4 h5 =>
        rcases hpcs t th h1 with h | h <;> rw [h2] at h <;> exact TPC.noConfusion h
    | startPrimaryWait th h1 h2 h3 h4 h5 =>
        rcases hpcs t th h1 with h | h <;> rw [h2] at h <;> exact TPC.noConfusion h
    | startPrimaryNoWait th h1 h2 h3 h4 h5 =>
        rcases hpcs t th h1 with h | h <;> rw [h2] at h <;> exact TPC.noConfusion h
    | runOk th i v h1 h2 h3 =>
        rcases hpcs t th h1 with h | h <;> rw [h2] at h <;> exact TPC.noConfusion h
    | runErr th i e h1 h2 h3 =>
        rcases hpcs t th h1 with h | h <;> rw [h2] at h <;> exact TPC.noConfusion h
    | runPanicRec th i h1 h2 h3 h4 =>
        rcases hpcs t th h1 with h | h <;> rw [h2] at h <;> exact TPC.noConfusion h
    | runPanicDie th i h1 h2 h3 h4 =>
        rcases hpcs t th h1 with h | h <;> rw [h2] at h <;> exact TPC.noConfusion h
    | writeStep th i v h1 h2 =>
        rcases hpcs t th h1 with h | h <;> rw [h2] at h <;> exact TPC.noConfusion h
    | finishStep th i r h1 h2 =>
        rcases hpcs t th h1 with h | h <;> rw [h2] at h <;> exact TPC.noConfusion h
    | delStep th i r h1 h2 =>
        rcases hpcs t th h1 with h | h <;> rw [h2] at h <;> exact TPC.noConfusion h
    | waitDone th i r h1 h2 h3 =>
        rcases hpcs t th h1 with h | h
        · rw [h2] at h
          exact TPC.noConfusion h
        · rw [h2] at h
          injection h with h
          subst h
          have h4 : some (none : Option (Nat × Option (CacheErr Nat))) =
              some (some r) := h3
          injection h4 with h4
          exact Option.noConfusion h4
  · refine Relation.ReflTransGen.head
      ⟨0, .startPrimaryWait 0 _ ⟨true, true, .start⟩ rfl rfl rfl rfl rfl⟩ ?_
    refine Relation.ReflTransGen.head
      ⟨1, .startJoinWait 1 _ ⟨true, true, .start⟩ 0 rfl rfl rfl rfl rfl⟩ ?_
    refine Relation.ReflTransGen.head
      ⟨0, .runPanicRec 0 _ ⟨true, true, .run 0⟩ 0 rfl rfl rfl rfl⟩ ?_
    refine Relation.ReflTransGen.head
      ⟨0, .finishStep 0 _ ⟨true, true, .finishCall 0 (0, some .recovered)⟩ 0
        (0, some .recovered) rfl rfl⟩ ?_
    refine Relation.ReflTransGen.head
      ⟨1, .waitDone 1 _ ⟨true, true, .waiting 0⟩ 0 (0, some .recovered)
        rfl rfl rfl⟩ ?_
    refine Relation.ReflTransGen.head
      ⟨0, .delStep 0 _ ⟨true, true, .del 0 (0, some .recovered)⟩ 0
        (0, some .recovered) rfl rfl⟩ ?_
    exact Relation.ReflTransGen.refl

end SF

end GoCache
